import Mathlib

/-!
Shallow embedding of `araA_codon_analysis.py` (codon usage analysis for the
araA gene).  Python dicts are modelled as insertion-ordered association
lists, floating-point frequency literals as exact rationals, and the
fallible divisions of the script as `Except`-valued computations.
-/

namespace CodonAnalysis

/-- The araA protein sequence from the script (newlines already removed,
as the script does with `.replace`). -/
def protein_sequence : String :=
  "MTIFDNYEVWFVIGSQHLYGPETLRQVTQHAEHVVNALNTEAKL" ++
  "PCKLVLKPLGTTPDEITAICRDANYDDRCAGLVVWLHTFSPAKMWINGLTMLNKPLLQ" ++
  "FHTQFNAALPWDSIDMDFMNLNQTAHGGREFGFIGARMRQQHAVVTGHWQDKQAHERI" ++
  "GSWMRQAVSKQDTRHLKVCRFGDNMREVAVTDGDKVAAQIKFGFSVNTWAVGDLVQVV" ++
  "NSISDGDVNALVDEYESCYTMTPATQIHGKKRQNVLEAARIELGMKRFLEQGGFHAFT" ++
  "TTFEDLHGLKQLPGLAVQRLMQQGYGFAGEGDWKTAALLRIMKVMSTGLQGGTSFMED" ++
  "YTYHFEKGNDLVLGSHMLEVCPSIAAEEKPILDVQHLGIGGKDDPARLIFNTQTGPAI" ++
  "VASLIDLGDRYRLLVNCIDTVKTPHSLPKLPVANALWKAQPDLPTASEAWILAGGAHH" ++
  "TVFSHALNLNDMRQFAEMHDIEITVIDNDTRLPAFKDALRWNEVYYGFRR"

/-- The standard genetic code table of the script, in its declaration
order: codon string to translated amino-acid symbol (or the stop
marker). -/
def genetic_code : List (String × Char) :=
  [("TTT", 'F'), ("TTC", 'F'), ("TTA", 'L'), ("TTG", 'L'),
   ("TCT", 'S'), ("TCC", 'S'), ("TCA", 'S'), ("TCG", 'S'),
   ("TAT", 'Y'), ("TAC", 'Y'), ("TAA", '*'), ("TAG", '*'),
   ("TGT", 'C'), ("TGC", 'C'), ("TGA", '*'), ("TGG", 'W'),
   ("CTT", 'L'), ("CTC", 'L'), ("CTA", 'L'), ("CTG", 'L'),
   ("CCT", 'P'), ("CCC", 'P'), ("CCA", 'P'), ("CCG", 'P'),
   ("CAT", 'H'), ("CAC", 'H'), ("CAA", 'Q'), ("CAG", 'Q'),
   ("CGT", 'R'), ("CGC", 'R'), ("CGA", 'R'), ("CGG", 'R'),
   ("ATT", 'I'), ("ATC", 'I'), ("ATA", 'I'), ("ATG", 'M'),
   ("ACT", 'T'), ("ACC", 'T'), ("ACA", 'T'), ("ACG", 'T'),
   ("AAT", 'N'), ("AAC", 'N'), ("AAA", 'K'), ("AAG", 'K'),
   ("AGT", 'S'), ("AGC", 'S'), ("AGA", 'R'), ("AGG", 'R'),
   ("GTT", 'V'), ("GTC", 'V'), ("GTA", 'V'), ("GTG", 'V'),
   ("GCT", 'A'), ("GCC", 'A'), ("GCA", 'A'), ("GCG", 'A'),
   ("GAT", 'D'), ("GAC", 'D'), ("GAA", 'E'), ("GAG", 'E'),
   ("GGT", 'G'), ("GGC", 'G'), ("GGA", 'G'), ("GGG", 'G')]

/-- The E. coli codon usage frequency table of the script, in its
declaration order; the float literals are read as exact rationals. -/
def ecoli_codon_freq : List (Char × List (String × ℚ)) :=
  [('F', [("TTT", 0.58), ("TTC", 0.42)]),
   ('L', [("TTA", 0.14), ("TTG", 0.13), ("CTT", 0.12), ("CTC", 0.10),
          ("CTA", 0.04), ("CTG", 0.47)]),
   ('S', [("TCT", 0.17), ("TCC", 0.15), ("TCA", 0.14), ("TCG", 0.14),
          ("AGT", 0.16), ("AGC", 0.25)]),
   ('Y', [("TAT", 0.59), ("TAC", 0.41)]),
   ('C', [("TGT", 0.46), ("TGC", 0.54)]),
   ('W', [("TGG", 1.00)]),
   ('P', [("CCT", 0.18), ("CCC", 0.13), ("CCA", 0.20), ("CCG", 0.49)]),
   ('H', [("CAT", 0.57), ("CAC", 0.43)]),
   ('Q', [("CAA", 0.34), ("CAG", 0.66)]),
   ('R', [("CGT", 0.36), ("CGC", 0.36), ("CGA", 0.07), ("CGG", 0.11),
          ("AGA", 0.07), ("AGG", 0.04)]),
   ('I', [("ATT", 0.49), ("ATC", 0.39), ("ATA", 0.11)]),
   ('M', [("ATG", 1.00)]),
   ('T', [("ACT", 0.19), ("ACC", 0.40), ("ACA", 0.17), ("ACG", 0.25)]),
   ('N', [("AAT", 0.49), ("AAC", 0.51)]),
   ('K', [("AAA", 0.74), ("AAG", 0.26)]),
   ('V', [("GTT", 0.28), ("GTC", 0.20), ("GTA", 0.17), ("GTG", 0.35)]),
   ('A', [("GCT", 0.18), ("GCC", 0.26), ("GCA", 0.23), ("GCG", 0.33)]),
   ('D', [("GAT", 0.63), ("GAC", 0.37)]),
   ('E', [("GAA", 0.68), ("GAG", 0.32)]),
   ('G', [("GGT", 0.35), ("GGC", 0.37), ("GGA", 0.13), ("GGG", 0.15)])]

/-- One step of the amino-acid counting loop (`aa_count[aa] += 1` with
initial value `1`); a key seen for the first time is appended at the end,
matching dict insertion order. -/
def countInsert : List (Char × Nat) → Char → List (Char × Nat)
  | [], c => [(c, 1)]
  | (a, n) :: rest, c =>
    if a = c then (a, n + 1) :: rest else (a, n) :: countInsert rest c

/-- The amino-acid counting loop of `analyze_codon_usage` (the dict
`aa_count`), keys in first-occurrence order. -/
def computeComposition (s : List Char) : List (Char × Nat) :=
  s.foldl countInsert []

/-- Dict read with default: `aa_count.get(aa, 0)`; also models
`aa_count[aa]` at call sites where the key is known to be present. -/
def getCount (ac : List (Char × Nat)) (a : Char) : Nat :=
  (ac.lookup a).getD 0

/-- Lookup in the frequency table (`aa in ecoli_codon_freq` plus
`ecoli_codon_freq[aa]`). -/
def freqLookup (tbl : List (Char × List (String × ℚ))) (aa : Char) :
    Option (List (String × ℚ)) :=
  tbl.lookup aa

/-- Lookup `genetic_code[codon]`; the script indexes the dict directly and
every codon of the frequency table is present in it, so a default is never
reached on the script's data. -/
def geneticLookup (c : String) : Char :=
  (genetic_code.lookup c).getD '?'

/-- One amino acid's share of the expected-usage loop: skip amino acids
absent from the frequency table (`if aa in ecoli_codon_freq`), else emit
one entry per codon, in table order. -/
def expectedStep (ac : List (Char × Nat))
    (tbl : List (Char × List (String × ℚ)))
    (acc : List (Char × String × ℚ × ℚ)) (aa : Char) :
    List (Char × String × ℚ × ℚ) :=
  match freqLookup tbl aa with
  | none => acc
  | some codons =>
    codons.foldl
      (fun acc2 cf =>
        acc2 ++ [(aa, cf.1, cf.2, (getCount ac aa : ℚ) * cf.2)])
      acc

/-- The expected-codon-usage loop (lines iterating
`sorted(aa_count.keys())` and `codons.items()`): entries are
(aminoAcid, codon, frequency, expected = count * freq), amino acids in
ascending sorted order, codons in table order. -/
def computeExpectedCodonUsage (ac : List (Char × Nat))
    (tbl : List (Char × List (String × ℚ))) :
    List (Char × String × ℚ × ℚ) :=
  ((ac.map Prod.fst).insertionSort (· ≤ ·)).foldl (expectedStep ac tbl) []

/-- The entries the expected-usage loop emits for one amino acid. -/
def expectedEntries (ac : List (Char × Nat))
    (tbl : List (Char × List (String × ℚ))) (aa : Char) :
    List (Char × String × ℚ × ℚ) :=
  match freqLookup tbl aa with
  | none => []
  | some codons =>
    codons.map (fun cf => (aa, cf.1, cf.2, (getCount ac aa : ℚ) * cf.2))

/-- The toy frequency table of the toy scenario: alanine only, with the
same entries and order as the reference table's `'A'` row. -/
def toyFreqTable : List (Char × List (String × ℚ)) :=
  [('A', [("GCT", 0.18), ("GCC", 0.26), ("GCA", 0.23), ("GCG", 0.33)])]

/-- Sum of the frequency fractions of one amino acid's codon list. -/
def freqSum (codons : List (String × ℚ)) : ℚ :=
  (codons.map Prod.snd).sum

/-- Sum of the frequency fractions registered under one amino acid of the
reference table. -/
def aaFreqSum (aa : Char) : ℚ :=
  freqSum ((freqLookup ecoli_codon_freq aa).getD [])

/-- All 64 codons over the nucleotide alphabet, in the row order of the
`genetic_code` table (first base outermost). -/
def allCodons : List String :=
  ['T', 'C', 'A', 'G'].flatMap (fun b1 =>
    ['T', 'C', 'A', 'G'].flatMap (fun b2 =>
      ['T', 'C', 'A', 'G'].map (fun b3 => String.mk [b1, b2, b3])))

/-- The (codon, aminoAcid, frequency) triple the classification loop
appends: `(codon, genetic_code[codon], freq)`. -/
def tierTriple (cf : String × ℚ) : String × Char × ℚ :=
  (cf.1, geneticLookup cf.1, cf.2)

/-- The three tier accumulators `(highly_used, moderately_used,
rarely_used)`. -/
abbrev TierAcc : Type :=
  List (String × Char × ℚ) × List (String × Char × ℚ) ×
    List (String × Char × ℚ)

/-- The body of the inner classification loop: `if freq > 0.4 ... elif
freq > 0.2 ... else ...`, appending to the matching tier list. -/
def tierStep (acc : TierAcc) (cf : String × ℚ) : TierAcc :=
  if (0.4 : ℚ) < cf.2 then
    (acc.1 ++ [tierTriple cf], acc.2.1, acc.2.2)
  else if (0.2 : ℚ) < cf.2 then
    (acc.1, acc.2.1 ++ [tierTriple cf], acc.2.2)
  else
    (acc.1, acc.2.1, acc.2.2 ++ [tierTriple cf])

/-- One amino acid's share of the classification loop: skip amino acids
absent from the frequency table, else run the inner loop over its
codons. -/
def tierAAStep (tbl : List (Char × List (String × ℚ)))
    (acc : TierAcc) (aa : Char) : TierAcc :=
  match freqLookup tbl aa with
  | none => acc
  | some codons => codons.foldl tierStep acc

/-- The tier-classification loops (`highly_used`, `moderately_used`,
`rarely_used`): iterate the composition keys in insertion order and bucket
every codon of each amino acid present in the table. -/
def classifyUsageTiers (ac : List (Char × Nat))
    (tbl : List (Char × List (String × ℚ))) : TierAcc :=
  ac.foldl (fun acc p => tierAAStep tbl acc p.1) ([], [], [])

/-- The triples the classification loop ranges over for one amino acid. -/
def aaTriples (tbl : List (Char × List (String × ℚ))) (aa : Char) :
    List (String × Char × ℚ) :=
  match freqLookup tbl aa with
  | none => []
  | some codons => codons.map tierTriple

/-- All (codon, aminoAcid, frequency) triples the tier classification
ranges over: one per codon of each composition key present in the
frequency table, in iteration order. -/
def reachableTriples (ac : List (Char × Nat))
    (tbl : List (Char × List (String × ℚ))) :
    List (String × Char × ℚ) :=
  ac.flatMap (fun p => aaTriples tbl p.1)

/-- The `freq > 0.4` branch condition of the classification loop. -/
def isHighFreq (t : String × Char × ℚ) : Bool :=
  decide ((0.4 : ℚ) < t.2.2)

/-- The `elif freq > 0.2` branch condition of the classification loop. -/
def isModerateFreq (t : String × Char × ℚ) : Bool :=
  !decide ((0.4 : ℚ) < t.2.2) && decide ((0.2 : ℚ) < t.2.2)

/-- The `else` branch condition of the classification loop. -/
def isLowFreq (t : String × Char × ℚ) : Bool :=
  !decide ((0.4 : ℚ) < t.2.2) && !decide ((0.2 : ℚ) < t.2.2)

/-- The list of GC-rich amino acids of the script (`gc_rich_aa`). -/
def gc_rich_aa : List Char := ['G', 'C', 'A', 'P', 'R']

/-- `gc_rich_count = sum(aa_count.get(aa, 0) for aa in gc_rich_aa)`. -/
def gcRichCount (ac : List (Char × Nat)) : Nat :=
  (gc_rich_aa.map (getCount ac)).sum

/-- `gc_content_estimate = (gc_rich_count / total_aa) * 100`. -/
def estimateGCContent (ac : List (Char × Nat)) (total : Nat) : ℚ :=
  ((gcRichCount ac : ℚ) / (total : ℚ)) * 100

/-- The descending-count preorder of `sorted(..., key=lambda x: x[1],
reverse=True)`: x precedes y when x's count is at least y's. -/
def countGE (x y : Char × Nat) : Prop := y.2 ≤ x.2

instance : DecidableRel countGE := fun x y => Nat.decLe y.2 x.2

instance : IsTotal (Char × Nat) countGE := ⟨fun x y => Nat.le_total y.2 x.2⟩

instance : IsTrans (Char × Nat) countGE := ⟨fun _ _ _ h1 h2 => le_trans h2 h1⟩

/-- `sorted(aa_count.items(), key=lambda x: x[1], reverse=True)[:limit]`;
Python's sort is stable, as is `List.insertionSort`. -/
def topFrequentAminoAcids (ac : List (Char × Nat)) (limit : Nat) :
    List (Char × Nat) :=
  (ac.insertionSort countGE).take limit

/-- Sum of the per-symbol counts of a composition result. -/
def sumCounts (l : List (Char × Nat)) : Nat :=
  (l.map Prod.snd).sum

/-- Runtime faults of the analysis: the `EmptySequence` precondition
violation the specification calls for, and the zero-division fault the
script actually raises. -/
inductive AnalysisError where
  | EmptySequence
  | ZeroDivisionError
deriving DecidableEq

/-- Division as the script performs it: a zero denominator raises, it is
not guarded. -/
def divQ (a b : ℚ) : Except AnalysisError ℚ :=
  if b = 0 then Except.error AnalysisError.ZeroDivisionError
  else Except.ok (a / b)

/-- The `hydrophobic` list of the script. -/
def hydrophobic : List Char := ['A', 'V', 'I', 'L', 'M', 'F', 'W', 'Y']

/-- The `charged` list of the script. -/
def charged : List Char := ['R', 'K', 'D', 'E']

/-- The `polar` list of the script. -/
def polar : List Char := ['N', 'Q', 'S', 'T', 'Y']

/-- `sum(aa_count.get(aa, 0) for aa in group)`. -/
def groupCount (ac : List (Char × Nat)) (group : List Char) : Nat :=
  (group.map (getCount ac)).sum

/-- The structured report of one analysis run: the derived entities the
script computes and prints, in computation order. -/
structure AnalysisReport where
  composition : List (Char × Nat × ℚ)
  expectedUsage : List (Char × String × ℚ × ℚ)
  usageTiers : TierAcc
  gcContentEstimate : ℚ
  topAminoAcids : List (Char × Nat)
  hydrophobicPercent : ℚ
  chargedPercent : ℚ
  polarPercent : ℚ

/-- The whole `analyze_codon_usage` pipeline over an arbitrary input
sequence, with every division of the script modelled as fallible and
performed in the script's statement order.  The script never checks for an
empty sequence before dividing. -/
def analyze_codon_usage (s : List Char) :
    Except AnalysisError AnalysisReport := do
  let aa_count := computeComposition s
  let total := s.length
  let composition ←
    ((aa_count.map Prod.fst).insertionSort (· ≤ ·)).mapM
      (fun aa => do
        let frac ← divQ (getCount aa_count aa : ℚ) (total : ℚ)
        pure (aa, getCount aa_count aa, frac * 100))
  let expectedUsage := computeExpectedCodonUsage aa_count ecoli_codon_freq
  let usageTiers := classifyUsageTiers aa_count ecoli_codon_freq
  let gcFrac ← divQ (gcRichCount aa_count : ℚ) (total : ℚ)
  let topAminoAcids := topFrequentAminoAcids aa_count 10
  let _topPercents ←
    topAminoAcids.mapM (fun p => divQ (p.2 : ℚ) (total : ℚ))
  let hydFrac ← divQ (groupCount aa_count hydrophobic : ℚ) (total : ℚ)
  let chgFrac ← divQ (groupCount aa_count charged : ℚ) (total : ℚ)
  let polFrac ← divQ (groupCount aa_count polar : ℚ) (total : ℚ)
  pure
    { composition := composition
      expectedUsage := expectedUsage
      usageTiers := usageTiers
      gcContentEstimate := gcFrac * 100
      topAminoAcids := topAminoAcids
      hydrophobicPercent := hydFrac * 100
      chargedPercent := chgFrac * 100
      polarPercent := polFrac * 100 }

lemma sumCounts_countInsert (l : List (Char × Nat)) (c : Char) :
    sumCounts (countInsert l c) = sumCounts l + 1 := by
  induction l with
  | nil => simp [countInsert, sumCounts]
  | cons p rest ih =>
    obtain ⟨a, n⟩ := p
    by_cases h : a = c
    · simp [countInsert, h, sumCounts]
      omega
    · simp only [countInsert, if_neg h, sumCounts, List.map_cons, List.sum_cons] at ih ⊢
      omega

lemma sumCounts_foldl (s : List Char) :
    ∀ acc, sumCounts (s.foldl countInsert acc) = sumCounts acc + s.length := by
  induction s with
  | nil => intro acc; simp
  | cons c t ih =>
    intro acc
    simp only [List.foldl_cons, List.length_cons]
    rw [ih, sumCounts_countInsert]
    omega

/-- C4: for every non-empty input sequence, the per-symbol counts of the
composition result sum to the length of the sequence. -/
theorem computeComposition_sum_eq_length (s : List Char) (_hs : s ≠ []) :
    sumCounts (computeComposition s) = s.length := by
  have h := sumCounts_foldl s []
  simpa [computeComposition, sumCounts] using h

/-- Witness for C4 at the concrete sequence "AAAB". -/
theorem computeComposition_sum_eq_length_witness :
    sumCounts (computeComposition "AAAB".data) = "AAAB".data.length :=
  computeComposition_sum_eq_length "AAAB".data (by decide)

lemma getCount_nil (a : Char) : getCount [] a = 0 := rfl

lemma getCount_cons (k : Char) (v : Nat) (l : List (Char × Nat)) (a : Char) :
    getCount ((k, v) :: l) a = if a = k then v else getCount l a := by
  unfold getCount
  rw [List.lookup_cons]
  cases h' : a == k
  · rw [if_neg (by simpa using h')]
  · rw [if_pos (by simpa using h')]
    rfl

lemma getCount_countInsert (l : List (Char × Nat)) (c a : Char) :
    getCount (countInsert l c) a = getCount l a + if a = c then 1 else 0 := by
  induction l with
  | nil =>
    simp only [countInsert, getCount_cons]
    by_cases h : a = c <;> simp [h, getCount]
  | cons p rest ih =>
    obtain ⟨b, n⟩ := p
    by_cases hbc : b = c
    · subst hbc
      by_cases hab : a = b <;> simp [countInsert, getCount_cons, hab]
    · by_cases hab : a = b
      · have hac : ¬a = c := hab ▸ hbc
        simp [countInsert, getCount_cons, hbc, hab, hac]
      · simp [countInsert, getCount_cons, hbc, hab, ih]

lemma getCount_foldl (s : List Char) :
    ∀ acc a, getCount (s.foldl countInsert acc) a = getCount acc a + s.count a := by
  induction s with
  | nil => intro acc a; simp
  | cons c t ih =>
    intro acc a
    simp only [List.foldl_cons, List.count_cons, beq_iff_eq]
    rw [ih, getCount_countInsert]
    by_cases h : a = c
    · subst h
      simp
      omega
    · have h' : ¬c = a := fun hh => h hh.symm
      simp [h, h']

lemma getCount_computeComposition (s : List Char) (a : Char) :
    getCount (computeComposition s) a = s.count a := by
  have h := getCount_foldl s [] a
  simpa [computeComposition, getCount, List.lookup] using h

lemma gcIteSum_le_one (c : Char) :
    (if c = 'G' then 1 else 0) + (if c = 'C' then 1 else 0) +
      (if c = 'A' then 1 else 0) + (if c = 'P' then 1 else 0) +
      (if c = 'R' then 1 else 0) ≤ 1 := by
  by_cases h1 : c = 'G' <;> by_cases h2 : c = 'C' <;> by_cases h3 : c = 'A' <;>
    by_cases h4 : c = 'P' <;> by_cases h5 : c = 'R' <;> simp_all

lemma gc_counts_le_length (s : List Char) :
    s.count 'G' + s.count 'C' + s.count 'A' + s.count 'P' + s.count 'R' ≤
      s.length := by
  induction s with
  | nil => simp
  | cons c t ih =>
    simp only [List.count_cons, List.length_cons, beq_iff_eq]
    have key := gcIteSum_le_one c
    omega

lemma gcRichCount_computeComposition (s : List Char) :
    gcRichCount (computeComposition s) =
      s.count 'G' + s.count 'C' + s.count 'A' + s.count 'P' + s.count 'R' := by
  simp [gcRichCount, gc_rich_aa, getCount_computeComposition]
  omega

lemma gcRichCount_le_length (s : List Char) :
    gcRichCount (computeComposition s) ≤ s.length := by
  rw [gcRichCount_computeComposition]
  exact gc_counts_le_length s

/-- C7: for every non-empty sequence the GC-content estimate equals the
sum of the counts of {G, C, A, P, R} divided by the total residue count,
times 100, and this value lies in the closed interval [0, 100]. -/
theorem estimateGCContent_spec (s : List Char) (hs : s ≠ []) :
    estimateGCContent (computeComposition s) s.length =
      ((getCount (computeComposition s) 'G' + getCount (computeComposition s) 'C' +
        getCount (computeComposition s) 'A' + getCount (computeComposition s) 'P' +
        getCount (computeComposition s) 'R' : ℚ) / (s.length : ℚ)) * 100 ∧
    0 ≤ estimateGCContent (computeComposition s) s.length ∧
    estimateGCContent (computeComposition s) s.length ≤ 100 := by
  have hlen : 0 < s.length := List.length_pos.mpr hs
  have hlenQ : (0 : ℚ) < (s.length : ℚ) := by exact_mod_cast hlen
  have hcount : gcRichCount (computeComposition s) ≤ s.length :=
    gcRichCount_le_length s
  refine ⟨?_, ?_, ?_⟩
  · simp only [estimateGCContent, gcRichCount, gc_rich_aa, List.map_cons,
      List.map_nil, List.sum_cons, List.sum_nil]
    push_cast
    ring
  · apply mul_nonneg
    · exact div_nonneg (by positivity) hlenQ.le
    · norm_num
  · have h1 : ((gcRichCount (computeComposition s) : ℚ)) / (s.length : ℚ) ≤ 1 := by
      rw [div_le_one hlenQ]
      exact_mod_cast hcount
    calc estimateGCContent (computeComposition s) s.length
        ≤ 1 * 100 := mul_le_mul_of_nonneg_right h1 (by norm_num)
      _ = 100 := by norm_num

/-- Witness for C7 at the concrete sequence "MA". -/
theorem estimateGCContent_spec_witness :
    0 ≤ estimateGCContent (computeComposition "MA".data) "MA".data.length ∧
    estimateGCContent (computeComposition "MA".data) "MA".data.length ≤ 100 :=
  ⟨(estimateGCContent_spec "MA".data (by decide)).2.1,
   (estimateGCContent_spec "MA".data (by decide)).2.2⟩

lemma keys_countInsert (l : List (Char × Nat)) (c : Char) :
    (countInsert l c).map Prod.fst =
      if c ∈ l.map Prod.fst then l.map Prod.fst
      else l.map Prod.fst ++ [c] := by
  induction l with
  | nil => simp [countInsert]
  | cons p rest ih =>
    obtain ⟨a, n⟩ := p
    by_cases h : a = c
    · simp [countInsert, h]
    · have h' : ¬c = a := fun hh => h hh.symm
      by_cases hc : c ∈ rest.map Prod.fst <;>
        simp [countInsert, h, h', hc, ih]

lemma mem_keys_countInsert (l : List (Char × Nat)) (c a : Char) :
    a ∈ (countInsert l c).map Prod.fst ↔ a ∈ l.map Prod.fst ∨ a = c := by
  rw [keys_countInsert]
  by_cases hc : c ∈ l.map Prod.fst
  · rw [if_pos hc]
    constructor
    · exact fun h => Or.inl h
    · rintro (h | rfl)
      · exact h
      · exact hc
  · rw [if_neg hc]
    simp

lemma mem_keys_foldl (s : List Char) :
    ∀ (acc : List (Char × Nat)) (a : Char),
      a ∈ (s.foldl countInsert acc).map Prod.fst ↔
        a ∈ acc.map Prod.fst ∨ a ∈ s := by
  induction s with
  | nil => intro acc a; simp
  | cons c t ih =>
    intro acc a
    simp only [List.foldl_cons, List.mem_cons]
    rw [ih, mem_keys_countInsert]
    tauto

lemma nodup_keys_foldl (s : List Char) :
    ∀ (acc : List (Char × Nat)), (acc.map Prod.fst).Nodup →
      ((s.foldl countInsert acc).map Prod.fst).Nodup := by
  induction s with
  | nil => intro acc h; simpa using h
  | cons c t ih =>
    intro acc h
    simp only [List.foldl_cons]
    apply ih
    rw [keys_countInsert]
    by_cases hc : c ∈ acc.map Prod.fst
    · rw [if_pos hc]; exact h
    · rw [if_neg hc]
      simp [List.nodup_append, h, hc]

lemma counts_pos_countInsert (l : List (Char × Nat)) (c : Char)
    (h : ∀ p ∈ l, 1 ≤ p.2) : ∀ p ∈ countInsert l c, 1 ≤ p.2 := by
  induction l with
  | nil =>
    intro p hp
    simp only [countInsert, List.mem_singleton] at hp
    simp [hp]
  | cons q rest ih =>
    obtain ⟨b, n⟩ := q
    intro p hp
    by_cases hbc : b = c
    · simp only [countInsert, if_pos hbc, List.mem_cons] at hp
      rcases hp with rfl | hp
      · omega
      · exact h p (List.mem_cons_of_mem _ hp)
    · simp only [countInsert, if_neg hbc, List.mem_cons] at hp
      rcases hp with rfl | hp
      · exact h (b, n) (List.mem_cons_self _ _)
      · exact ih (fun q hq => h q (List.mem_cons_of_mem _ hq)) p hp

lemma counts_pos_foldl (s : List Char) :
    ∀ (acc : List (Char × Nat)), (∀ p ∈ acc, 1 ≤ p.2) →
      ∀ p ∈ s.foldl countInsert acc, 1 ≤ p.2 := by
  induction s with
  | nil => intro acc h; simpa using h
  | cons c t ih =>
    intro acc h
    simp only [List.foldl_cons]
    exact ih _ (counts_pos_countInsert acc c h)

/-- C9: the key set of the composition result is exactly the set of
distinct symbols of the input sequence (with no duplicate keys), and every
stored count is at least 1, so no zero-count entry ever appears. -/
theorem computeComposition_keys_spec (s : List Char) :
    ((computeComposition s).map Prod.fst).Nodup ∧
    (∀ a : Char, a ∈ (computeComposition s).map Prod.fst ↔ a ∈ s) ∧
    (∀ p ∈ computeComposition s, 1 ≤ p.2) := by
  refine ⟨nodup_keys_foldl s [] (by simp), ?_, counts_pos_foldl s [] (by simp)⟩
  intro a
  rw [computeComposition, mem_keys_foldl]
  simp

/-- Witness for C9 at the concrete sequence "AB". -/
theorem computeComposition_keys_spec_witness :
    'A' ∈ (computeComposition "AB".data).map Prod.fst :=
  ((computeComposition_keys_spec "AB".data).2.1 'A').mpr (by decide)

lemma tierStep_foldl (codons : List (String × ℚ)) :
    ∀ acc : TierAcc,
      codons.foldl tierStep acc =
        (acc.1 ++ (codons.map tierTriple).filter isHighFreq,
         acc.2.1 ++ (codons.map tierTriple).filter isModerateFreq,
         acc.2.2 ++ (codons.map tierTriple).filter isLowFreq) := by
  induction codons with
  | nil => intro acc; simp
  | cons cf rest ih =>
    intro acc
    simp only [List.foldl_cons, List.map_cons, List.filter_cons]
    rw [ih]
    have htr : (tierTriple cf).2.2 = cf.2 := rfl
    by_cases h1 : (0.4 : ℚ) < cf.2
    · simp [tierStep, h1, isHighFreq, isModerateFreq, isLowFreq, htr]
    · by_cases h2 : (0.2 : ℚ) < cf.2 <;>
        simp [tierStep, h1, h2, isHighFreq, isModerateFreq, isLowFreq, htr]

lemma tierAAStep_eq (tbl : List (Char × List (String × ℚ)))
    (acc : TierAcc) (aa : Char) :
    tierAAStep tbl acc aa =
      (acc.1 ++ (aaTriples tbl aa).filter isHighFreq,
       acc.2.1 ++ (aaTriples tbl aa).filter isModerateFreq,
       acc.2.2 ++ (aaTriples tbl aa).filter isLowFreq) := by
  unfold tierAAStep aaTriples
  cases freqLookup tbl aa with
  | none => simp
  | some codons => exact tierStep_foldl codons acc

lemma classify_foldl (ac : List (Char × Nat))
    (tbl : List (Char × List (String × ℚ))) :
    ∀ acc : TierAcc,
      ac.foldl (fun acc2 p => tierAAStep tbl acc2 p.1) acc =
        (acc.1 ++ (reachableTriples ac tbl).filter isHighFreq,
         acc.2.1 ++ (reachableTriples ac tbl).filter isModerateFreq,
         acc.2.2 ++ (reachableTriples ac tbl).filter isLowFreq) := by
  induction ac with
  | nil => intro acc; simp [reachableTriples]
  | cons p rest ih =>
    intro acc
    simp only [List.foldl_cons]
    rw [ih, tierAAStep_eq]
    simp [reachableTriples, List.filter_append]

lemma classifyUsageTiers_eq_filter (ac : List (Char × Nat))
    (tbl : List (Char × List (String × ℚ))) :
    classifyUsageTiers ac tbl =
      ((reachableTriples ac tbl).filter isHighFreq,
       (reachableTriples ac tbl).filter isModerateFreq,
       (reachableTriples ac tbl).filter isLowFreq) := by
  have h := classify_foldl ac tbl ([], [], [])
  simpa [classifyUsageTiers] using h

lemma isHighFreq_iff (t : String × Char × ℚ) :
    isHighFreq t = true ↔ (0.4 : ℚ) < t.2.2 := by
  simp [isHighFreq]

lemma isModerateFreq_iff (t : String × Char × ℚ) :
    isModerateFreq t = true ↔ (0.2 : ℚ) < t.2.2 ∧ t.2.2 ≤ (0.4 : ℚ) := by
  simp only [isModerateFreq, Bool.and_eq_true, Bool.not_eq_true',
    decide_eq_false_iff_not, decide_eq_true_eq, not_lt]
  tauto

lemma isLowFreq_iff (t : String × Char × ℚ) :
    isLowFreq t = true ↔ t.2.2 ≤ (0.2 : ℚ) := by
  simp only [isLowFreq, Bool.and_eq_true, Bool.not_eq_true',
    decide_eq_false_iff_not, not_lt]
  constructor
  · rintro ⟨_, h2⟩
    exact h2
  · intro h
    exact ⟨le_trans h (by norm_num), h⟩

/-- C1: the tier classification assigns every (codon, aminoAcid,
frequency) triple reachable from the composition result and the frequency
table to exactly one of the three tiers, with the strict boundaries
frequency > 0.4 (high), 0.2 < frequency ≤ 0.4 (moderate) and
frequency ≤ 0.2 (low); the three tier lists are pairwise disjoint and
together cover all reachable triples. -/
theorem classifyUsageTiers_partition (ac : List (Char × Nat))
    (tbl : List (Char × List (String × ℚ))) :
    (∀ t, t ∈ (classifyUsageTiers ac tbl).1 ↔
        t ∈ reachableTriples ac tbl ∧ (0.4 : ℚ) < t.2.2) ∧
    (∀ t, t ∈ (classifyUsageTiers ac tbl).2.1 ↔
        t ∈ reachableTriples ac tbl ∧ (0.2 : ℚ) < t.2.2 ∧ t.2.2 ≤ (0.4 : ℚ)) ∧
    (∀ t, t ∈ (classifyUsageTiers ac tbl).2.2 ↔
        t ∈ reachableTriples ac tbl ∧ t.2.2 ≤ (0.2 : ℚ)) ∧
    (∀ t ∈ reachableTriples ac tbl,
      (t ∈ (classifyUsageTiers ac tbl).1 ∧ t ∉ (classifyUsageTiers ac tbl).2.1 ∧
        t ∉ (classifyUsageTiers ac tbl).2.2) ∨
      (t ∉ (classifyUsageTiers ac tbl).1 ∧ t ∈ (classifyUsageTiers ac tbl).2.1 ∧
        t ∉ (classifyUsageTiers ac tbl).2.2) ∨
      (t ∉ (classifyUsageTiers ac tbl).1 ∧ t ∉ (classifyUsageTiers ac tbl).2.1 ∧
        t ∈ (classifyUsageTiers ac tbl).2.2)) := by
  have hhi : ∀ t, t ∈ (classifyUsageTiers ac tbl).1 ↔
      t ∈ reachableTriples ac tbl ∧ (0.4 : ℚ) < t.2.2 := by
    intro t
    rw [classifyUsageTiers_eq_filter]
    simp [List.mem_filter, isHighFreq_iff]
  have hmo : ∀ t, t ∈ (classifyUsageTiers ac tbl).2.1 ↔
      t ∈ reachableTriples ac tbl ∧ (0.2 : ℚ) < t.2.2 ∧ t.2.2 ≤ (0.4 : ℚ) := by
    intro t
    rw [classifyUsageTiers_eq_filter]
    simp [List.mem_filter, isModerateFreq_iff]
  have hlo : ∀ t, t ∈ (classifyUsageTiers ac tbl).2.2 ↔
      t ∈ reachableTriples ac tbl ∧ t.2.2 ≤ (0.2 : ℚ) := by
    intro t
    rw [classifyUsageTiers_eq_filter]
    simp [List.mem_filter, isLowFreq_iff]
  refine ⟨hhi, hmo, hlo, ?_⟩
  intro t ht
  by_cases h4 : (0.4 : ℚ) < t.2.2
  · refine Or.inl ⟨(hhi t).mpr ⟨ht, h4⟩, ?_, ?_⟩
    · intro hmem
      have := ((hmo t).mp hmem).2.2
      linarith
    · intro hmem
      have := ((hlo t).mp hmem).2
      linarith
  · by_cases h2 : (0.2 : ℚ) < t.2.2
    · refine Or.inr (Or.inl ⟨?_, (hmo t).mpr ⟨ht, h2, not_lt.mp h4⟩, ?_⟩)
      · intro hmem
        exact h4 ((hhi t).mp hmem).2
      · intro hmem
        have := ((hlo t).mp hmem).2
        linarith
    · refine Or.inr (Or.inr ⟨?_, ?_, (hlo t).mpr ⟨ht, not_lt.mp h2⟩⟩)
      · intro hmem
        exact h4 ((hhi t).mp hmem).2
      · intro hmem
        exact h2 ((hmo t).mp hmem).2.1

/-- Witness for C1: on the sequence "F", the TTT codon (frequency 0.58)
lands in the high tier. -/
theorem classifyUsageTiers_partition_witness :
    ("TTT", 'F', (0.58 : ℚ)) ∈
      (classifyUsageTiers (computeComposition "F".data) ecoli_codon_freq).1 :=
  ((classifyUsageTiers_partition (computeComposition "F".data)
      ecoli_codon_freq).1 _).mpr
    ⟨List.mem_cons_self _ _, by norm_num⟩

lemma foldl_append_singleton {α β : Type} (g : α → β) (l : List α) :
    ∀ acc : List β,
      l.foldl (fun acc2 a => acc2 ++ [g a]) acc = acc ++ l.map g := by
  induction l with
  | nil => intro acc; simp
  | cons a t ih => intro acc; simp [ih]

lemma foldl_step_flatMap {α β : Type} (f : α → List β)
    (step : List β → α → List β)
    (hstep : ∀ acc a, step acc a = acc ++ f a) (l : List α) :
    ∀ acc, l.foldl step acc = acc ++ l.flatMap f := by
  induction l with
  | nil => intro acc; simp
  | cons a t ih =>
    intro acc
    simp only [List.foldl_cons, List.flatMap_cons]
    rw [hstep, ih, List.append_assoc]

lemma expectedStep_eq (ac : List (Char × Nat))
    (tbl : List (Char × List (String × ℚ)))
    (acc : List (Char × String × ℚ × ℚ)) (aa : Char) :
    expectedStep ac tbl acc aa = acc ++ expectedEntries ac tbl aa := by
  unfold expectedStep expectedEntries
  cases freqLookup tbl aa with
  | none => simp
  | some codons =>
    show codons.foldl
        (fun acc2 cf => acc2 ++ [(aa, cf.1, cf.2, (getCount ac aa : ℚ) * cf.2)])
        acc =
      acc ++ codons.map (fun cf => (aa, cf.1, cf.2, (getCount ac aa : ℚ) * cf.2))
    exact foldl_append_singleton _ codons acc

lemma computeExpectedCodonUsage_eq_flatMap (ac : List (Char × Nat))
    (tbl : List (Char × List (String × ℚ))) :
    computeExpectedCodonUsage ac tbl =
      ((ac.map Prod.fst).insertionSort (· ≤ ·)).flatMap
        (expectedEntries ac tbl) := by
  unfold computeExpectedCodonUsage
  rw [foldl_step_flatMap (expectedEntries ac tbl) (expectedStep ac tbl)
    (expectedStep_eq ac tbl)]
  simp

lemma expectedEntries_fst (ac : List (Char × Nat))
    (tbl : List (Char × List (String × ℚ))) (aa : Char) :
    ∀ e ∈ expectedEntries ac tbl aa, e.1 = aa := by
  unfold expectedEntries
  cases freqLookup tbl aa with
  | none => simp
  | some codons =>
    intro e he
    simp only [List.mem_map] at he
    obtain ⟨cf, _, rfl⟩ := he
    rfl

lemma expectedEntries_formula (ac : List (Char × Nat))
    (tbl : List (Char × List (String × ℚ))) (aa : Char) :
    ∀ e ∈ expectedEntries ac tbl aa,
      e.2.2.2 = (getCount ac e.1 : ℚ) * e.2.2.1 := by
  unfold expectedEntries
  cases freqLookup tbl aa with
  | none => simp
  | some codons =>
    intro e he
    simp only [List.mem_map] at he
    obtain ⟨cf, _, rfl⟩ := he
    rfl

lemma pairwise_flatMap_of {α β : Type} (R : β → β → Prop) (S : α → α → Prop)
    (f : α → List β) (l : List α)
    (href : ∀ a ∈ l, ∀ x ∈ f a, ∀ y ∈ f a, R x y)
    (hl : l.Pairwise S)
    (hcross : ∀ a b, S a b → ∀ x ∈ f a, ∀ y ∈ f b, R x y) :
    (l.flatMap f).Pairwise R := by
  induction l with
  | nil => simp
  | cons a t ih =>
    simp only [List.flatMap_cons]
    rw [List.pairwise_append]
    refine ⟨?_, ?_, ?_⟩
    · exact List.pairwise_of_forall_mem_list (href a (List.mem_cons_self _ _))
    · exact ih (fun b hb => href b (List.mem_cons_of_mem _ hb))
        ((List.pairwise_cons.mp hl).2)
    · intro x hx y hy
      rw [List.mem_flatMap] at hy
      obtain ⟨b, hb, hyb⟩ := hy
      exact hcross a b ((List.pairwise_cons.mp hl).1 b hb) x hx y hyb

/-- C5: every entry of the expected-usage listing satisfies
expectedCount = count(aminoAcid) × frequencyFraction; entries are grouped
by amino acid in ascending sorted order with codons in the table's
declaration order; and on the toy scenario "AAAA" with the toy alanine
table the listing is exactly GCT→0.72, GCC→1.04, GCA→0.92, GCG→1.32. -/
theorem computeExpectedCodonUsage_spec :
    (∀ (ac : List (Char × Nat)) (tbl : List (Char × List (String × ℚ))),
      ∀ e ∈ computeExpectedCodonUsage ac tbl,
        e.2.2.2 = (getCount ac e.1 : ℚ) * e.2.2.1) ∧
    (∀ (ac : List (Char × Nat)) (tbl : List (Char × List (String × ℚ))),
      computeExpectedCodonUsage ac tbl =
        ((ac.map Prod.fst).insertionSort (· ≤ ·)).flatMap
          (expectedEntries ac tbl)) ∧
    (∀ (ac : List (Char × Nat)) (tbl : List (Char × List (String × ℚ))),
      (computeExpectedCodonUsage ac tbl).Pairwise
        (fun e1 e2 => e1.1 ≤ e2.1)) ∧
    computeExpectedCodonUsage (computeComposition "AAAA".data) toyFreqTable =
      [('A', "GCT", 0.18, 0.72), ('A', "GCC", 0.26, 1.04),
       ('A', "GCA", 0.23, 0.92), ('A', "GCG", 0.33, 1.32)] := by
  have hformula : ∀ (ac : List (Char × Nat))
      (tbl : List (Char × List (String × ℚ))),
      ∀ e ∈ computeExpectedCodonUsage ac tbl,
        e.2.2.2 = (getCount ac e.1 : ℚ) * e.2.2.1 := by
    intro ac tbl e he
    rw [computeExpectedCodonUsage_eq_flatMap, List.mem_flatMap] at he
    obtain ⟨aa, _, hea⟩ := he
    exact expectedEntries_formula ac tbl aa e hea
  refine ⟨hformula, computeExpectedCodonUsage_eq_flatMap, ?_, ?_⟩
  · intro ac tbl
    rw [computeExpectedCodonUsage_eq_flatMap]
    apply pairwise_flatMap_of _ (· ≤ ·)
    · intro aa _ x hx y hy
      rw [expectedEntries_fst ac tbl aa x hx, expectedEntries_fst ac tbl aa y hy]
    · exact List.sorted_insertionSort (· ≤ ·) _
    · intro a b hab x hx y hy
      rw [expectedEntries_fst ac tbl a x hx, expectedEntries_fst ac tbl b y hy]
      exact hab
  · rw [computeExpectedCodonUsage_eq_flatMap]
    norm_num [expectedEntries, freqLookup, toyFreqTable, computeComposition,
      countInsert, getCount, List.lookup]

/-- Witness for C5: the first toy entry indeed satisfies the
expected-count formula. -/
theorem computeExpectedCodonUsage_spec_witness :
    (0.72 : ℚ) =
      (getCount (computeComposition "AAAA".data) 'A' : ℚ) * (0.18 : ℚ) :=
  computeExpectedCodonUsage_spec.1 (computeComposition "AAAA".data)
    toyFreqTable ('A', "GCT", 0.18, 0.72)
    (by rw [computeExpectedCodonUsage_spec.2.2.2]; simp)

lemma insertionSort_filter_count (ac : List (Char × Nat)) (n : Nat) :
    (ac.insertionSort countGE).filter (fun p => decide (p.2 = n)) =
      ac.filter (fun p => decide (p.2 = n)) := by
  have hsub : List.Sublist (ac.filter (fun p => decide (p.2 = n))) ac :=
    List.filter_sublist ac
  have hpw : (ac.filter (fun p => decide (p.2 = n))).Pairwise countGE := by
    apply List.pairwise_of_forall_mem_list
    intro x hx y hy
    have hx' : x.2 = n := by simpa using (List.mem_filter.mp hx).2
    have hy' : y.2 = n := by simpa using (List.mem_filter.mp hy).2
    unfold countGE
    rw [hx', hy']
  have h1 : List.Sublist (ac.filter (fun p => decide (p.2 = n)))
      (ac.insertionSort countGE) :=
    List.sublist_insertionSort hpw hsub
  have hself : (ac.filter (fun p => decide (p.2 = n))).filter
      (fun p => decide (p.2 = n)) = ac.filter (fun p => decide (p.2 = n)) :=
    List.filter_eq_self.mpr (fun a ha => (List.mem_filter.mp ha).2)
  have h2 : List.Sublist (ac.filter (fun p => decide (p.2 = n)))
      ((ac.insertionSort countGE).filter (fun p => decide (p.2 = n))) := by
    have h := List.Sublist.filter (fun p => decide (p.2 = n)) h1
    rwa [hself] at h
  have h3 : List.Perm
      ((ac.insertionSort countGE).filter (fun p => decide (p.2 = n)))
      (ac.filter (fun p => decide (p.2 = n))) :=
    (List.perm_insertionSort countGE ac).filter _
  exact (h2.eq_of_length h3.length_eq.symm).symm

/-- C8: the top-frequency listing with limit 10 has at most 10 entries,
is sorted by count in descending order with ties kept in the insertion
order of the composition mapping (stable sort), and every returned entry
comes from the domain of the composition result. -/
theorem topFrequentAminoAcids_spec (ac : List (Char × Nat)) :
    (topFrequentAminoAcids ac 10).length ≤ 10 ∧
    (topFrequentAminoAcids ac 10).Pairwise (fun x y => y.2 ≤ x.2) ∧
    (∀ p ∈ topFrequentAminoAcids ac 10, p.1 ∈ ac.map Prod.fst) ∧
    (∀ n : Nat,
      (topFrequentAminoAcids ac 10).filter (fun p => decide (p.2 = n)) <+:
        ac.filter (fun p => decide (p.2 = n))) := by
  refine ⟨?_, ?_, ?_, ?_⟩
  · unfold topFrequentAminoAcids
    rw [List.length_take]
    exact min_le_left _ _
  · unfold topFrequentAminoAcids
    exact List.Pairwise.sublist (List.take_sublist _ _)
      (List.sorted_insertionSort countGE ac)
  · intro p hp
    unfold topFrequentAminoAcids at hp
    have h1 := List.take_subset _ _ hp
    rw [List.mem_insertionSort] at h1
    exact List.mem_map_of_mem Prod.fst h1
  · intro n
    have hpref : topFrequentAminoAcids ac 10 <+: ac.insertionSort countGE :=
      List.take_prefix _ _
    have h := hpref.filter (fun p => decide (p.2 = n))
    rwa [insertionSort_filter_count ac n] at h

/-- Witness for C8 at the composition of "AB": the entry ('A', 1) is
returned and its amino acid is in the composition's domain. -/
theorem topFrequentAminoAcids_spec_witness :
    ('A', 1).1 ∈ (computeComposition "AB".data).map Prod.fst :=
  (topFrequentAminoAcids_spec (computeComposition "AB".data)).2.2.1
    ('A', 1) (by decide)

/-- C6: every codon listed under an amino acid in the frequency table
translates to exactly that amino acid under the genetic code, and the
genetic code contains each of the 64 codons over {A,C,G,T}^3 exactly
once. -/
theorem tables_consistent :
    (∀ p ∈ ecoli_codon_freq, ∀ cf ∈ p.2,
      genetic_code.lookup cf.1 = some p.1) ∧
    genetic_code.map Prod.fst = allCodons ∧
    allCodons.Nodup ∧
    allCodons.length = 64 ∧
    (∀ c ∈ allCodons, (genetic_code.map Prod.fst).count c = 1) := by
  refine ⟨by decide, by decide, by decide, by decide, by decide⟩

/-- Witness for C6: the first frequency-table codon TTT translates to F
under the genetic code. -/
theorem tables_consistent_witness :
    genetic_code.lookup "TTT" = some 'F' :=
  tables_consistent.1 ('F', [("TTT", 0.58), ("TTC", 0.42)])
    (List.mem_cons_self _ _) ("TTT", 0.58) (List.mem_cons_self _ _)

/-- C2 counterexample: serine has an entry in the frequency table, but
its synonymous-codon frequencies sum to 1.01, which is not within 1e-6 of
1.0. -/
theorem freqSum_tolerance_counterexample :
    'S' ∈ ecoli_codon_freq.map Prod.fst ∧
    aaFreqSum 'S' = 101 / 100 ∧
    ¬(|aaFreqSum 'S' - 1| ≤ 1 / 1000000) := by
  have hlk : freqLookup ecoli_codon_freq 'S' =
      some [("TCT", 0.17), ("TCC", 0.15), ("TCA", 0.14), ("TCG", 0.14),
            ("AGT", 0.16), ("AGC", 0.25)] := rfl
  have h : aaFreqSum 'S' = 101 / 100 := by
    unfold aaFreqSum
    rw [hlk]
    norm_num [freqSum]
  refine ⟨by decide, h, ?_⟩
  rw [h, not_le, show (101 : ℚ) / 100 - 1 = 1 / 100 by norm_num,
    abs_of_pos (by norm_num : (0 : ℚ) < 1 / 100)]
  norm_num

/-- C2 amended: for every amino acid with an entry in the frequency
table, the sum of its synonymous-codon frequencies is within 0.01 of 1.0
(the rounded literature values for S, R and T sum to 1.01 and for I to
0.99, so the claimed 1e-6 tolerance fails). -/
theorem freqSum_within_centi :
    ∀ p ∈ ecoli_codon_freq, |freqSum p.2 - 1| ≤ 1 / 100 := by
  intro p hp
  fin_cases hp <;> norm_num [freqSum, abs_le]

/-- Witness for the amended C2 at the phenylalanine row. -/
theorem freqSum_within_centi_witness :
    |freqSum [("TTT", 0.58), ("TTC", 0.42)] - 1| ≤ 1 / 100 :=
  freqSum_within_centi ('F', [("TTT", 0.58), ("TTC", 0.42)])
    (List.mem_cons_self _ _)

/-- C3 (actual code behavior): on the empty sequence the analysis does
not surface an EmptySequence error before dividing; it reaches the
GC-content division with a zero total residue count and raises a
zero-division fault. -/
theorem analyze_codon_usage_empty :
    analyze_codon_usage [] = Except.error AnalysisError.ZeroDivisionError :=
  rfl

/-- C10 counterexample: "FL" and "LF" contain exactly the same set of
distinct symbols, yet the classification emits different (differently
ordered) tier sequences, because it iterates composition keys in
first-occurrence order. -/
theorem classify_order_counterexample :
    (∀ c : Char, c ∈ "FL".data ↔ c ∈ "LF".data) ∧
    classifyUsageTiers (computeComposition "FL".data) ecoli_codon_freq ≠
      classifyUsageTiers (computeComposition "LF".data) ecoli_codon_freq := by
  constructor
  · intro c
    show c ∈ ['F', 'L'] ↔ c ∈ ['L', 'F']
    simp [List.mem_cons]
    tauto
  · have hFL : (classifyUsageTiers (computeComposition "FL".data)
        ecoli_codon_freq).1 =
        [("TTT", 'F', 0.58), ("TTC", 'F', 0.42), ("CTG", 'L', 0.47)] := by
      rw [classifyUsageTiers_eq_filter]
      show List.filter isHighFreq
          [("TTT", 'F', 0.58), ("TTC", 'F', 0.42),
           ("TTA", 'L', 0.14), ("TTG", 'L', 0.13), ("CTT", 'L', 0.12),
           ("CTC", 'L', 0.10), ("CTA", 'L', 0.04), ("CTG", 'L', 0.47)] = _
      norm_num [List.filter, isHighFreq]
    have hLF : (classifyUsageTiers (computeComposition "LF".data)
        ecoli_codon_freq).1 =
        [("CTG", 'L', 0.47), ("TTT", 'F', 0.58), ("TTC", 'F', 0.42)] := by
      rw [classifyUsageTiers_eq_filter]
      show List.filter isHighFreq
          [("TTA", 'L', 0.14), ("TTG", 'L', 0.13), ("CTT", 'L', 0.12),
           ("CTC", 'L', 0.10), ("CTA", 'L', 0.04), ("CTG", 'L', 0.47),
           ("TTT", 'F', 0.58), ("TTC", 'F', 0.42)] = _
      norm_num [List.filter, isHighFreq]
    intro h
    have h1 := congrArg (fun x : TierAcc => x.1) h
    simp only at h1
    rw [hFL, hLF] at h1
    have h2 := congrArg (List.map (fun t : String × Char × ℚ => t.1)) h1
    exact absurd h2 (by decide)

lemma reachableTriples_eq_keys (ac : List (Char × Nat))
    (tbl : List (Char × List (String × ℚ))) :
    reachableTriples ac tbl =
      (ac.map Prod.fst).flatMap (aaTriples tbl) := by
  unfold reachableTriples
  induction ac with
  | nil => simp
  | cons p rest ih => simp [ih]

/-- C10 amended: the tier membership depends only on the set of distinct
symbols of the input: for two sequences with the same set of distinct
symbols the three tier sequences are permutations of each other
(identical as multisets); as sequences they agree only when the symbols'
first-occurrence orders coincide. -/
theorem classify_perm_of_same_symbols (s t : List Char)
    (h : ∀ c : Char, c ∈ s ↔ c ∈ t) :
    List.Perm (classifyUsageTiers (computeComposition s) ecoli_codon_freq).1
      (classifyUsageTiers (computeComposition t) ecoli_codon_freq).1 ∧
    List.Perm
      (classifyUsageTiers (computeComposition s) ecoli_codon_freq).2.1
      (classifyUsageTiers (computeComposition t) ecoli_codon_freq).2.1 ∧
    List.Perm
      (classifyUsageTiers (computeComposition s) ecoli_codon_freq).2.2
      (classifyUsageTiers (computeComposition t) ecoli_codon_freq).2.2 := by
  have hks : ((computeComposition s).map Prod.fst).Nodup :=
    nodup_keys_foldl s [] (by simp)
  have hkt : ((computeComposition t).map Prod.fst).Nodup :=
    nodup_keys_foldl t [] (by simp)
  have hmem : ∀ a, a ∈ (computeComposition s).map Prod.fst ↔
      a ∈ (computeComposition t).map Prod.fst := by
    intro a
    simp only [computeComposition, mem_keys_foldl, List.map_nil,
      List.not_mem_nil, false_or]
    exact h a
  have hperm : List.Perm ((computeComposition s).map Prod.fst)
      ((computeComposition t).map Prod.fst) :=
    (List.perm_ext_iff_of_nodup hks hkt).mpr hmem
  have hrperm : List.Perm
      (reachableTriples (computeComposition s) ecoli_codon_freq)
      (reachableTriples (computeComposition t) ecoli_codon_freq) := by
    rw [reachableTriples_eq_keys, reachableTriples_eq_keys]
    exact List.Perm.flatMap_right (aaTriples ecoli_codon_freq) hperm
  refine ⟨?_, ?_, ?_⟩ <;>
    rw [classifyUsageTiers_eq_filter, classifyUsageTiers_eq_filter] <;>
    exact hrperm.filter _

/-- Witness for the amended C10: "FF" and "F" have the same distinct
symbols, so their high tiers are permutations of each other. -/
theorem classify_perm_of_same_symbols_witness :
    List.Perm
      (classifyUsageTiers (computeComposition ['F', 'F']) ecoli_codon_freq).1
      (classifyUsageTiers (computeComposition ['F']) ecoli_codon_freq).1 :=
  (classify_perm_of_same_symbols ['F', 'F'] ['F']
    (by intro c; simp [List.mem_cons])).1

end CodonAnalysis
